import Mathlib

/-!
Shallow embedding of the two simulations in the Space-engine repository:
the wrap-around spacecraft of `PYTHON---Space-engine.py` (Variant 1) and
the gravitational sandbox `SpaceEngine` of the VAR2 file (Variant 2).
Machine floats are idealised as real numbers; Python `int()` is modelled
as truncation toward zero and Python float `%` as floor-based modulo.
-/

noncomputable section

namespace Var1

/-- Screen width of Variant 1 (`WIDTH = 800`). -/
def WIDTH : ℝ := 800

/-- Screen height of Variant 1 (`HEIGHT = 600`). -/
def HEIGHT : ℝ := 600

/-- Python float modulo `a % b` for positive `b`: `a - b * ⌊a / b⌋`. -/
def fmod (a b : ℝ) : ℝ := a - b * ⌊a / b⌋

/-- State of the `Spacecraft` class of Variant 1 (render surface omitted). -/
structure Spacecraft where
  x : ℝ
  y : ℝ
  angle : ℝ
  vx : ℝ
  vy : ℝ

/-- `self.friction = 0.99` from `Spacecraft.__init__`. -/
def friction : ℝ := 0.99

/-- `Spacecraft.update`: apply friction to the velocity, add the velocity to
the position, then wrap the position modulo the screen dimensions. -/
def Spacecraft.update (s : Spacecraft) : Spacecraft :=
  let vx := s.vx * friction
  let vy := s.vy * friction
  let x := s.x + vx
  let y := s.y + vy
  { s with vx := vx, vy := vy, x := fmod x WIDTH, y := fmod y HEIGHT }

end Var1

namespace Var2

/-- Screen width of Variant 2 (`WIDTH = 1280`). -/
def WIDTH : ℝ := 1280

/-- Screen height of Variant 2 (`HEIGHT = 800`). -/
def HEIGHT : ℝ := 800

/-- Scaled gravitational constant `G = 6.67430e-1`. -/
def G : ℝ := 6.67430e-1

/-- A 2D vector (`np.array([x, y], dtype=float)`). -/
@[ext]
structure Vec2 where
  x : ℝ
  y : ℝ

instance : Add Vec2 := ⟨fun a b => ⟨a.x + b.x, a.y + b.y⟩⟩

instance : Sub Vec2 := ⟨fun a b => ⟨a.x - b.x, a.y - b.y⟩⟩

instance : Zero Vec2 := ⟨⟨0, 0⟩⟩

instance : HMul Vec2 ℝ Vec2 := ⟨fun v c => ⟨v.x * c, v.y * c⟩⟩

instance : HDiv Vec2 ℝ Vec2 := ⟨fun v c => ⟨v.x / c, v.y / c⟩⟩

/-- Euclidean norm of a 2D vector (`np.linalg.norm`). -/
def vnorm (v : Vec2) : ℝ := Real.sqrt (v.x ^ 2 + v.y ^ 2)

/-- Vector sum of a list of 2D vectors. -/
def vecSum (l : List Vec2) : Vec2 := l.foldr (· + ·) 0

/-- The `Planet` dataclass. -/
structure Planet where
  pos : Vec2
  mass : ℝ
  radius : ℝ
  color : ℕ × ℕ × ℕ

/-- The `Ship` dataclass. -/
structure Ship where
  pos : Vec2
  vel : Vec2
  angle : ℝ
  angular_vel : ℝ
  thrust : ℝ
  fuel : ℝ

/-- `SpaceEngine.compute_gravity`: fold over the planet list accumulating
`(r / dist) * acc_mag` with the squared distance floored at
`(radius * 0.5) ** 2`. -/
def compute_gravity (planets : List Planet) (position : Vec2) : Vec2 :=
  planets.foldl
    (fun total_acc p =>
      let r := p.pos - position
      let dist2 := max (r.x ^ 2 + r.y ^ 2) ((p.radius * 0.5) ^ 2)
      let dist := Real.sqrt dist2
      let acc_mag := G * p.mass / dist2
      total_acc + r / dist * acc_mag)
    ⟨0, 0⟩

/-- One planet's contribution in the `compute_gravity` loop body. -/
def gravContrib (p : Planet) (position : Vec2) : Vec2 :=
  let r := p.pos - position
  let dist2 := max (r.x ^ 2 + r.y ^ 2) ((p.radius * 0.5) ^ 2)
  let dist := Real.sqrt dist2
  let acc_mag := G * p.mass / dist2
  r / dist * acc_mag

/-- Contribution as the spec words it: a vector of magnitude
`G * mass / dist2` directed from the query point toward the planet,
with the same floored `dist2`. -/
def specContrib (p : Planet) (position : Vec2) : Vec2 :=
  let r := p.pos - position
  let dist2 := max (r.x ^ 2 + r.y ^ 2) ((p.radius * 0.5) ^ 2)
  r / vnorm r * (G * p.mass / dist2)

/-- Python `int()` applied to a real: truncation toward zero. -/
def trunc (x : ℝ) : ℤ := if 0 ≤ x then ⌊x⌋ else ⌈x⌉

/-- The affine map inside `SpaceEngine.world_to_screen`, before the `int()`
truncation of each component. -/
def world_to_screen_real (w h : ℝ) (cam : Vec2) (zoom : ℝ) (world_pos : Vec2) : Vec2 :=
  (world_pos - cam) * zoom + ⟨w / 2, h / 2⟩

/-- `SpaceEngine.world_to_screen`: the affine map followed by `int()`
truncation of each component. -/
def world_to_screen (w h : ℝ) (cam : Vec2) (zoom : ℝ) (world_pos : Vec2) : ℤ × ℤ :=
  let s := (world_pos - cam) * zoom + ⟨w / 2, h / 2⟩
  (trunc s.x, trunc s.y)

/-- `SpaceEngine.screen_to_world`. -/
def screen_to_world (w h : ℝ) (cam : Vec2) (zoom : ℝ) (screen_pos : Vec2) : Vec2 :=
  (screen_pos - ⟨w / 2, h / 2⟩) / zoom + cam

/-- Minimum of the nonempty list `x :: xs` (value taken by `np.argmin`'s
chosen element). -/
def listMin (x : ℝ) (xs : List ℝ) : ℝ := xs.foldl min x

/-- `np.argmin` on the nonempty list `x :: xs`: index of the first minimum. -/
def argminIdx (x : ℝ) (xs : List ℝ) : ℕ :=
  match xs with
  | [] => 0
  | y :: ys => if x ≤ listMin y ys then 0 else argminIdx y ys + 1

/-- Right-click branch of `SpaceEngine.handle_events`: convert the click to
world space, find the planet of minimum distance, delete it when that
distance is below 80, otherwise leave the list unchanged. -/
def despawn (w h : ℝ) (cam : Vec2) (zoom : ℝ) (click : Vec2)
    (planets : List Planet) : List Planet :=
  let world := screen_to_world w h cam zoom click
  match planets with
  | [] => planets
  | p :: ps =>
      let dists := (p :: ps).map fun q => vnorm (q.pos - world)
      let idx := argminIdx (vnorm (p.pos - world)) (ps.map fun q => vnorm (q.pos - world))
      if dists.getD idx 0 < 80 then (p :: ps).eraseIdx idx else planets

/-- Index chosen by the despawn handler (`np.argmin` over the distances). -/
def despawnIdx (w h : ℝ) (cam : Vec2) (zoom : ℝ) (click : Vec2)
    (p : Planet) (ps : List Planet) : ℕ :=
  let world := screen_to_world w h cam zoom click
  argminIdx (vnorm (p.pos - world)) (ps.map fun q => vnorm (q.pos - world))

/-- Minimum distance from the click's world point to the planets `p :: ps`. -/
def minDist (w h : ℝ) (cam : Vec2) (zoom : ℝ) (click : Vec2)
    (p : Planet) (ps : List Planet) : ℝ :=
  let world := screen_to_world w h cam zoom click
  listMin (vnorm (p.pos - world)) (ps.map fun q => vnorm (q.pos - world))

/-- Held control keys read via `pygame.key.get_pressed()`: each field is the
disjunction of the two key codes the source checks. -/
structure Keys where
  left : Bool
  right : Bool
  up : Bool
  down : Bool

/-- Mutable state of the `SpaceEngine` object (window, clock, starfield and
font omitted: they never feed back into the simulation state). -/
structure EngineState where
  cam_pos : Vec2
  zoom : ℝ
  planets : List Planet
  ship : Ship
  paused : Bool
  trails : List Vec2
  applying_thrust : Bool

/-- `self.max_trail_length = 500`. -/
def max_trail_length : ℕ := 500

/-- `SpaceEngine.create_default_ship`. -/
def create_default_ship : Ship :=
  { pos := ⟨0, -300⟩, vel := ⟨40, 0⟩, angle := Real.pi / 2, angular_vel := 0,
    thrust := 120, fuel := 100 }

/-- `SpaceEngine.reset`: restore the two default planets, the default ship,
camera and zoom, and clear the trail buffer. -/
def reset (st : EngineState) : EngineState :=
  { st with
    planets := [
      { pos := ⟨0, 0⟩, mass := 20000, radius := 40, color := (90, 100, 255) },
      { pos := ⟨-600, 200⟩, mass := 8000, radius := 28, color := (200, 120, 80) }],
    ship := create_default_ship,
    cam_pos := ⟨0, 0⟩,
    zoom := 1,
    trails := [] }

/-- `SpaceEngine.update`: return unchanged when paused; otherwise rotate,
apply thrust and fuel burn, integrate gravity, velocity and position,
append to the (bounded) trail, and lerp the camera toward the ship. -/
def update (st : EngineState) (keys : Keys) (dt : ℝ) : EngineState :=
  if st.paused then st
  else
    let s := st.ship
    let angle1 := if keys.left then s.angle - 2.5 * dt else s.angle
    let angle2 := if keys.right then angle1 + 2.5 * dt else angle1
    let vft :=
      if s.fuel > 0 then
        let forward : Vec2 := ⟨Real.cos (angle2 - Real.pi / 2), Real.sin (angle2 - Real.pi / 2)⟩
        let vel1 := if keys.up then s.vel + forward * (s.thrust * dt) else s.vel
        let fuel1 := if keys.up then max 0 (s.fuel - 10 * dt) else s.fuel
        let back : Vec2 := ⟨Real.cos (angle2 + Real.pi / 2), Real.sin (angle2 + Real.pi / 2)⟩
        let vel2 := if keys.down then vel1 + back * (s.thrust * 0.5 * dt) else vel1
        let fuel2 := if keys.down then max 0 (fuel1 - 5 * dt) else fuel1
        (vel2, fuel2, keys.up || keys.down)
      else (s.vel, s.fuel, false)
    let acc := compute_gravity st.planets s.pos
    let vel3 := vft.1 + acc * dt
    let pos2 := s.pos + vel3 * dt
    let trails1 := st.trails ++ [pos2]
    let trails2 := if trails1.length > max_trail_length then trails1.tail else trails1
    { st with
      ship := { s with angle := angle2, vel := vel3, pos := pos2, fuel := vft.2.1 },
      applying_thrust := vft.2.2,
      trails := trails2,
      cam_pos := st.cam_pos + (pos2 - st.cam_pos) * (0.05 : ℝ) }

/-- Fold `update` over a list of frames (held keys and elapsed `dt`),
as the main loop does. -/
def runUpdates (st : EngineState) (frames : List (Keys × ℝ)) : EngineState :=
  frames.foldl (fun acc f => update acc f.1 f.2) st

/-- No keys held. -/
def keys0 : Keys := ⟨false, false, false, false⟩

/-- Thrust-forward held. -/
def keysUp : Keys := ⟨false, false, true, false⟩

/-- A concrete running engine state with no planets. -/
def st0 : EngineState :=
  { cam_pos := ⟨0, 0⟩, zoom := 1, planets := [], ship := create_default_ship,
    paused := false, trails := [], applying_thrust := false }

/-- A concrete paused engine state. -/
def stPaused : EngineState := { st0 with paused := true }

/-- A planet used as a concrete input: the query points of interest lie
inside its distance floor. -/
def pIn : Planet := { pos := ⟨0, 0⟩, mass := 1, radius := 2, color := (0, 0, 0) }

/-- A planet used as a concrete input at distance 5 from the origin. -/
def pOut : Planet := { pos := ⟨3, 4⟩, mass := 2, radius := 2, color := (0, 0, 0) }

end Var2

namespace Var2

@[simp]
theorem vadd_x (a b : Vec2) : (a + b).x = a.x + b.x := rfl

@[simp]
theorem vadd_y (a b : Vec2) : (a + b).y = a.y + b.y := rfl

@[simp]
theorem vsub_x (a b : Vec2) : (a - b).x = a.x - b.x := rfl

@[simp]
theorem vsub_y (a b : Vec2) : (a - b).y = a.y - b.y := rfl

@[simp]
theorem vmul_x (v : Vec2) (c : ℝ) : (v * c).x = v.x * c := rfl

@[simp]
theorem vmul_y (v : Vec2) (c : ℝ) : (v * c).y = v.y * c := rfl

@[simp]
theorem vdiv_x (v : Vec2) (c : ℝ) : (v / c).x = v.x / c := rfl

@[simp]
theorem vdiv_y (v : Vec2) (c : ℝ) : (v / c).y = v.y / c := rfl

@[simp]
theorem vzero_x : (0 : Vec2).x = 0 := rfl

@[simp]
theorem vzero_y : (0 : Vec2).y = 0 := rfl

@[simp]
theorem vadd_zero (a : Vec2) : a + 0 = a := by
  ext <;> simp

@[simp]
theorem vzero_add (a : Vec2) : 0 + a = a := by
  ext <;> simp

theorem vadd_assoc (a b c : Vec2) : a + b + c = a + (b + c) := by
  ext <;> simp [add_assoc]

@[simp]
theorem vmul_zero (v : Vec2) : v * (0 : ℝ) = 0 := by
  ext <;> simp

@[simp]
theorem vecSum_nil : vecSum [] = 0 := rfl

@[simp]
theorem vecSum_cons (v : Vec2) (l : List Vec2) : vecSum (v :: l) = v + vecSum l := rfl

theorem compute_gravity_foldl (planets : List Planet) (position : Vec2) :
    compute_gravity planets position =
      planets.foldl (fun a p => a + gravContrib p position) (0 : Vec2) := rfl

theorem gravContrib_eq (p : Planet) (position : Vec2) :
    gravContrib p position =
      (p.pos - position) /
          Real.sqrt (max ((p.pos - position).x ^ 2 + (p.pos - position).y ^ 2)
            ((p.radius * 0.5) ^ 2)) *
        (G * p.mass /
          max ((p.pos - position).x ^ 2 + (p.pos - position).y ^ 2)
            ((p.radius * 0.5) ^ 2)) := rfl

theorem specContrib_eq (p : Planet) (position : Vec2) :
    specContrib p position =
      (p.pos - position) / vnorm (p.pos - position) *
        (G * p.mass /
          max ((p.pos - position).x ^ 2 + (p.pos - position).y ^ 2)
            ((p.radius * 0.5) ^ 2)) := rfl

theorem foldl_gravContrib (position : Vec2) (l : List Planet) (init : Vec2) :
    l.foldl (fun a p => a + gravContrib p position) init =
      init + vecSum (l.map fun p => gravContrib p position) := by
  induction l generalizing init with
  | nil => simp
  | cons p ps ih => simp [ih, vadd_assoc]

/-- C1: `compute_gravity` returns the zero vector on the empty planet list and
in general is the vector sum over the planets of the loop's per-planet
contribution (superposition); whenever the actual squared distance is at least
the floor `(radius * 0.5) ^ 2` and the relative vector is nonzero, that
contribution is exactly a vector of magnitude `G * mass / dist2` directed from
the query point toward the planet, as the claim words it. -/
theorem compute_gravity_superposition :
    (∀ position : Vec2, compute_gravity [] position = 0) ∧
    (∀ (planets : List Planet) (position : Vec2),
      compute_gravity planets position =
        vecSum (planets.map fun p => gravContrib p position)) ∧
    (∀ (p : Planet) (position : Vec2),
      (p.radius * 0.5) ^ 2 ≤ (p.pos - position).x ^ 2 + (p.pos - position).y ^ 2 →
      p.pos - position ≠ 0 →
      gravContrib p position = specContrib p position) := by
  refine ⟨fun position => rfl, fun planets position => ?_, fun p position hfl hne => ?_⟩
  · rw [compute_gravity_foldl, foldl_gravContrib, vzero_add]
  · unfold gravContrib specContrib vnorm
    simp only [max_eq_left hfl]

/-- C1 counterexample: at a query point strictly inside the distance floor the
loop's contribution is strictly shorter than the spec's vector of magnitude
`G * mass / dist2`: with planet `pIn` (radius 2, mass 1, at the origin) and
query point `(1/2, 0)`, `compute_gravity` returns `(-G/2, 0)` while the
claimed form is `(-G, 0)`. -/
theorem compute_gravity_magnitude_counterexample :
    compute_gravity [pIn] ⟨1 / 2, 0⟩ ≠ specContrib pIn ⟨1 / 2, 0⟩ := by
  have e1 : (pIn.pos - ⟨1 / 2, 0⟩ : Vec2) = ⟨-(1 / 2), 0⟩ := by
    ext <;> simp [pIn]
  have e2 : ((⟨-(1 / 2), 0⟩ : Vec2).x ^ 2 + (⟨-(1 / 2), 0⟩ : Vec2).y ^ 2) = (1 / 4 : ℝ) := by
    norm_num
  have e3 : max ((1 : ℝ) / 4) ((pIn.radius * 0.5) ^ 2) = 1 := by
    rw [show pIn.radius = 2 from rfl]
    norm_num
  have e4 : vnorm ⟨-(1 / 2), 0⟩ = 1 / 2 := by
    unfold vnorm
    rw [show ((⟨-(1 / 2), 0⟩ : Vec2).x ^ 2 + (⟨-(1 / 2), 0⟩ : Vec2).y ^ 2 : ℝ) = (1 / 2) ^ 2
      by norm_num]
    exact Real.sqrt_sq (by norm_num)
  have h1 : compute_gravity [pIn] ⟨1 / 2, 0⟩ = ⟨-(G / 2), 0⟩ := by
    have hg : compute_gravity [pIn] ⟨1 / 2, 0⟩ = 0 + gravContrib pIn ⟨1 / 2, 0⟩ := rfl
    rw [hg, vzero_add, gravContrib_eq, e1, e2, e3, Real.sqrt_one]
    ext
    · simp [pIn]
      ring
    · simp [pIn]
  have h2 : specContrib pIn ⟨1 / 2, 0⟩ = ⟨-G, 0⟩ := by
    rw [specContrib_eq, e1, e2, e3, e4]
    ext <;> simp [pIn]
  rw [h1, h2]
  intro h
  have hx := congrArg Vec2.x h
  simp only at hx
  rw [G] at hx
  norm_num at hx

/-- C1 witness: instantiation of `compute_gravity_superposition` at the planet
`pOut` and the origin, where the actual distance (5) exceeds the floor (1). -/
theorem compute_gravity_superposition_witness :
    ((pOut.radius * 0.5) ^ 2 ≤ (pOut.pos - ⟨0, 0⟩).x ^ 2 + (pOut.pos - ⟨0, 0⟩).y ^ 2) ∧
    (pOut.pos - ⟨0, 0⟩ ≠ 0) ∧
    compute_gravity [] ⟨0, 0⟩ = 0 ∧
    compute_gravity [pOut] ⟨0, 0⟩ = vecSum ([pOut].map fun p => gravContrib p ⟨0, 0⟩) ∧
    gravContrib pOut ⟨0, 0⟩ = specContrib pOut ⟨0, 0⟩ := by
  have h1 : (pOut.radius * 0.5) ^ 2 ≤ (pOut.pos - ⟨0, 0⟩).x ^ 2 + (pOut.pos - ⟨0, 0⟩).y ^ 2 := by
    norm_num [pOut]
  have h2 : pOut.pos - (⟨0, 0⟩ : Vec2) ≠ 0 := by
    simp [pOut, Vec2.ext_iff]
  exact ⟨h1, h2, compute_gravity_superposition.1 _,
    compute_gravity_superposition.2.1 _ _,
    compute_gravity_superposition.2.2 _ _ h1 h2⟩

/-- C2: for a planet with positive radius and nonnegative mass, the floored
squared distance and its square root are both nonzero (so no division by zero
occurs in the contribution, even at the planet's center), and the
contribution's magnitude is at most `G * mass / (0.5 * radius) ^ 2`. -/
theorem compute_gravity_bounded (p : Planet) (position : Vec2)
    (hr : 0 < p.radius) (hm : 0 ≤ p.mass) :
    max ((p.pos - position).x ^ 2 + (p.pos - position).y ^ 2) ((p.radius * 0.5) ^ 2) ≠ 0 ∧
    Real.sqrt (max ((p.pos - position).x ^ 2 + (p.pos - position).y ^ 2)
      ((p.radius * 0.5) ^ 2)) ≠ 0 ∧
    vnorm (gravContrib p position) ≤ G * p.mass / (0.5 * p.radius) ^ 2 := by
  have hG : (0 : ℝ) ≤ G := by rw [G]; norm_num
  have hGm : (0 : ℝ) ≤ G * p.mass := mul_nonneg hG hm
  have hf : (0 : ℝ) < (p.radius * 0.5) ^ 2 := by positivity
  rw [gravContrib_eq]
  unfold vnorm
  rcases hv : p.pos - position with ⟨a, b⟩
  dsimp only
  have hd2 : 0 < max (a ^ 2 + b ^ 2) ((p.radius * 0.5) ^ 2) :=
    lt_of_lt_of_le hf (le_max_right _ _)
  have hd : 0 < Real.sqrt (max (a ^ 2 + b ^ 2) ((p.radius * 0.5) ^ 2)) :=
    Real.sqrt_pos.mpr hd2
  have hq : (0 : ℝ) ≤ G * p.mass / max (a ^ 2 + b ^ 2) ((p.radius * 0.5) ^ 2) /
      Real.sqrt (max (a ^ 2 + b ^ 2) ((p.radius * 0.5) ^ 2)) :=
    div_nonneg (div_nonneg hGm hd2.le) hd.le
  refine ⟨ne_of_gt hd2, ne_of_gt hd, ?_⟩
  simp only [vdiv_x, vdiv_y, vmul_x, vmul_y]
  have hexpr : (a / Real.sqrt (max (a ^ 2 + b ^ 2) ((p.radius * 0.5) ^ 2)) *
        (G * p.mass / max (a ^ 2 + b ^ 2) ((p.radius * 0.5) ^ 2))) ^ 2 +
      (b / Real.sqrt (max (a ^ 2 + b ^ 2) ((p.radius * 0.5) ^ 2)) *
        (G * p.mass / max (a ^ 2 + b ^ 2) ((p.radius * 0.5) ^ 2))) ^ 2 =
      (a ^ 2 + b ^ 2) *
        (G * p.mass / max (a ^ 2 + b ^ 2) ((p.radius * 0.5) ^ 2) /
          Real.sqrt (max (a ^ 2 + b ^ 2) ((p.radius * 0.5) ^ 2))) ^ 2 := by
    ring
  rw [hexpr, Real.sqrt_mul (by positivity), Real.sqrt_sq hq]
  calc Real.sqrt (a ^ 2 + b ^ 2) *
        (G * p.mass / max (a ^ 2 + b ^ 2) ((p.radius * 0.5) ^ 2) /
          Real.sqrt (max (a ^ 2 + b ^ 2) ((p.radius * 0.5) ^ 2)))
      ≤ Real.sqrt (max (a ^ 2 + b ^ 2) ((p.radius * 0.5) ^ 2)) *
        (G * p.mass / max (a ^ 2 + b ^ 2) ((p.radius * 0.5) ^ 2) /
          Real.sqrt (max (a ^ 2 + b ^ 2) ((p.radius * 0.5) ^ 2))) :=
        mul_le_mul_of_nonneg_right (Real.sqrt_le_sqrt (le_max_left _ _)) hq
    _ = G * p.mass / max (a ^ 2 + b ^ 2) ((p.radius * 0.5) ^ 2) := by
        rw [mul_comm]
        exact div_mul_cancel₀ _ (ne_of_gt hd)
    _ ≤ G * p.mass / (0.5 * p.radius) ^ 2 := by
        rw [show (0.5 * p.radius) ^ 2 = (p.radius * 0.5) ^ 2 by ring]
        gcongr
        exact le_max_right _ _

/-- C2 witness: instantiation of `compute_gravity_bounded` at the planet
`pIn` and the query point `(1/2, 0)` inside its distance floor. -/
theorem compute_gravity_bounded_witness :
    0 < pIn.radius ∧ 0 ≤ pIn.mass ∧
    (max ((pIn.pos - ⟨1 / 2, 0⟩).x ^ 2 + (pIn.pos - ⟨1 / 2, 0⟩).y ^ 2)
        ((pIn.radius * 0.5) ^ 2) ≠ 0 ∧
      Real.sqrt (max ((pIn.pos - ⟨1 / 2, 0⟩).x ^ 2 + (pIn.pos - ⟨1 / 2, 0⟩).y ^ 2)
        ((pIn.radius * 0.5) ^ 2)) ≠ 0 ∧
      vnorm (gravContrib pIn ⟨1 / 2, 0⟩) ≤ G * pIn.mass / (0.5 * pIn.radius) ^ 2) :=
  ⟨by norm_num [pIn], by norm_num [pIn],
    compute_gravity_bounded pIn ⟨1 / 2, 0⟩ (by norm_num [pIn]) (by norm_num [pIn])⟩

theorem trunc_intCast (n : ℤ) : trunc (n : ℝ) = n := by
  unfold trunc
  split
  · exact Int.floor_intCast n
  · exact Int.ceil_intCast n

/-- C3 (amended): for any camera and nonzero zoom the real-valued affine maps
underlying the two coordinate conversions are exact inverses of each other,
and for integer screen points the implemented `world_to_screen` (with its
`int()` truncation) composed after `screen_to_world` is the identity. -/
theorem coord_transform_roundtrip (w h : ℝ) (cam : Vec2) (zoom : ℝ) (p : Vec2)
    (hz : zoom ≠ 0) :
    screen_to_world w h cam zoom (world_to_screen_real w h cam zoom p) = p ∧
    world_to_screen_real w h cam zoom (screen_to_world w h cam zoom p) = p ∧
    ∀ q : ℤ × ℤ,
      world_to_screen w h cam zoom (screen_to_world w h cam zoom ⟨(q.1 : ℝ), (q.2 : ℝ)⟩) =
        q := by
  have h2 : ∀ v : Vec2, world_to_screen_real w h cam zoom (screen_to_world w h cam zoom v) = v := by
    intro v
    unfold world_to_screen_real screen_to_world
    ext
    · simp only [vadd_x, vsub_x, vdiv_x, vmul_x]
      field_simp
      ring
    · simp only [vadd_y, vsub_y, vdiv_y, vmul_y]
      field_simp
      ring
  refine ⟨?_, h2 p, fun q => ?_⟩
  · unfold world_to_screen_real screen_to_world
    ext
    · simp only [vadd_x, vsub_x, vdiv_x, vmul_x]
      field_simp
    · simp only [vadd_y, vsub_y, vdiv_y, vmul_y]
      field_simp
  · have hq := h2 ⟨(q.1 : ℝ), (q.2 : ℝ)⟩
    unfold world_to_screen
    rw [show ((screen_to_world w h cam zoom ⟨(q.1 : ℝ), (q.2 : ℝ)⟩ - cam) * zoom +
        (⟨w / 2, h / 2⟩ : Vec2)) =
        world_to_screen_real w h cam zoom
          (screen_to_world w h cam zoom ⟨(q.1 : ℝ), (q.2 : ℝ)⟩) from rfl, hq]
    dsimp only
    rw [trunc_intCast, trunc_intCast]

/-- C3 counterexample: with camera (0,0), zoom 1 and the world point
`(1/2, 0)`, `world_to_screen` truncates the half pixel to the integer point
(640, 400), and `screen_to_world` of that result is `(0, 0)`, not `(1/2, 0)`:
the implemented maps are not inverses. -/
theorem coord_transform_roundtrip_counterexample :
    screen_to_world WIDTH HEIGHT ⟨0, 0⟩ 1
        ⟨((world_to_screen WIDTH HEIGHT ⟨0, 0⟩ 1 ⟨1 / 2, 0⟩).1 : ℝ),
          ((world_to_screen WIDTH HEIGHT ⟨0, 0⟩ 1 ⟨1 / 2, 0⟩).2 : ℝ)⟩ ≠ ⟨1 / 2, 0⟩ := by
  have e1 : world_to_screen WIDTH HEIGHT ⟨0, 0⟩ 1 ⟨1 / 2, 0⟩ = (640, 400) := by
    unfold world_to_screen trunc WIDTH HEIGHT
    simp only [vadd_x, vadd_y, vsub_x, vsub_y, vmul_x, vmul_y]
    norm_num
  rw [e1]
  intro hcontra
  have hx := congrArg Vec2.x hcontra
  unfold screen_to_world WIDTH HEIGHT at hx
  simp only [vadd_x, vsub_x, vdiv_x] at hx
  norm_num at hx

/-- C3 witness: instantiation of `coord_transform_roundtrip` at camera (5,6),
zoom 1, world point (7,8) and screen point (3,4). -/
theorem coord_transform_roundtrip_witness :
    (1 : ℝ) ≠ 0 ∧
    screen_to_world WIDTH HEIGHT ⟨5, 6⟩ 1
        (world_to_screen_real WIDTH HEIGHT ⟨5, 6⟩ 1 ⟨7, 8⟩) = ⟨7, 8⟩ ∧
    world_to_screen WIDTH HEIGHT ⟨5, 6⟩ 1
        (screen_to_world WIDTH HEIGHT ⟨5, 6⟩ 1 ⟨((3 : ℤ) : ℝ), ((4 : ℤ) : ℝ)⟩) = (3, 4) :=
  ⟨by norm_num,
    (coord_transform_roundtrip WIDTH HEIGHT ⟨5, 6⟩ 1 ⟨7, 8⟩ (by norm_num)).1,
    (coord_transform_roundtrip WIDTH HEIGHT ⟨5, 6⟩ 1 ⟨7, 8⟩ (by norm_num)).2.2 (3, 4)⟩

theorem foldl_min_min (l : List ℝ) : ∀ a b : ℝ, l.foldl min (min a b) = min a (l.foldl min b) := by
  induction l with
  | nil => intro a b; rfl
  | cons c l ih =>
      intro a b
      simp only [List.foldl_cons]
      rw [min_assoc, ih]

theorem listMin_cons (x y : ℝ) (ys : List ℝ) : listMin x (y :: ys) = min x (listMin y ys) := by
  unfold listMin
  simp only [List.foldl_cons]
  exact foldl_min_min ys x y

theorem listMin_le (x : ℝ) (xs : List ℝ) : ∀ y ∈ x :: xs, listMin x xs ≤ y := by
  induction xs generalizing x with
  | nil =>
      intro y hy
      simp at hy
      subst hy
      exact le_refl _
  | cons z zs ih =>
      intro y hy
      rw [listMin_cons]
      rcases List.mem_cons.mp hy with h1 | h2
      · subst h1
        exact min_le_left _ _
      · exact le_trans (min_le_right _ _) (ih z y h2)

theorem argminIdx_lt_length (x : ℝ) (xs : List ℝ) : argminIdx x xs < xs.length + 1 := by
  induction xs generalizing x with
  | nil => simp [argminIdx]
  | cons y ys ih =>
      unfold argminIdx
      split
      · simp
      · have := ih y
        simp only [List.length_cons]
        omega

theorem getD_argminIdx (x : ℝ) (xs : List ℝ) :
    (x :: xs).getD (argminIdx x xs) 0 = listMin x xs := by
  induction xs generalizing x with
  | nil => rfl
  | cons y ys ih =>
      unfold argminIdx
      split
      · rename_i hle
        rw [listMin_cons, min_eq_left hle]
        rfl
      · rename_i hgt
        rw [listMin_cons, min_eq_right (le_of_not_le hgt)]
        simpa using ih y

/-- C8: the despawn handler leaves the empty planet list unchanged; on a
nonempty list it selects a valid index whose distance to the click's world
point is the minimum of all the planet distances, removes exactly that planet
when the minimum distance is below the threshold 80, and leaves the planet
list unchanged otherwise (clicking empty space does nothing). -/
theorem despawn_nearest (w h : ℝ) (cam : Vec2) (zoom : ℝ) (click : Vec2)
    (p : Planet) (ps : List Planet) :
    despawn w h cam zoom click [] = [] ∧
    despawnIdx w h cam zoom click p ps < (p :: ps).length ∧
    ((p :: ps).map fun q => vnorm (q.pos - screen_to_world w h cam zoom click)).getD
        (despawnIdx w h cam zoom click p ps) 0 = minDist w h cam zoom click p ps ∧
    (∀ q ∈ p :: ps,
      minDist w h cam zoom click p ps ≤ vnorm (q.pos - screen_to_world w h cam zoom click)) ∧
    (minDist w h cam zoom click p ps < 80 →
      despawn w h cam zoom click (p :: ps) =
        (p :: ps).eraseIdx (despawnIdx w h cam zoom click p ps)) ∧
    (¬ minDist w h cam zoom click p ps < 80 →
      despawn w h cam zoom click (p :: ps) = p :: ps) := by
  have hgetD : ((p :: ps).map fun q => vnorm (q.pos - screen_to_world w h cam zoom click)).getD
      (despawnIdx w h cam zoom click p ps) 0 = minDist w h cam zoom click p ps := by
    unfold despawnIdx minDist
    rw [List.map_cons]
    exact getD_argminIdx _ _
  have hdesp : despawn w h cam zoom click (p :: ps) =
      if minDist w h cam zoom click p ps < 80 then
        (p :: ps).eraseIdx (despawnIdx w h cam zoom click p ps)
      else p :: ps := by
    rw [← hgetD]
    rfl
  refine ⟨rfl, ?_, hgetD, ?_, ?_, ?_⟩
  · unfold despawnIdx
    have := argminIdx_lt_length
      (vnorm (p.pos - screen_to_world w h cam zoom click))
      (ps.map fun q => vnorm (q.pos - screen_to_world w h cam zoom click))
    simpa using this
  · intro q hq
    unfold minDist
    rcases List.mem_cons.mp hq with h1 | h2
    · subst h1
      exact listMin_le _ _ _ (List.mem_cons_self _ _)
    · exact listMin_le _ _ _ (List.mem_cons_of_mem _ (List.mem_map_of_mem _ h2))
  · intro hlt
    rw [hdesp, if_pos hlt]
  · intro hge
    rw [hdesp, if_neg hge]

/-- C8 witness: instantiation of `despawn_nearest` with the single planet
`pIn` at the origin and a click at the screen centre (world point (0,0)):
the minimum distance 0 is below the threshold, so the planet is removed. -/
theorem despawn_nearest_witness :
    minDist WIDTH HEIGHT ⟨0, 0⟩ 1 ⟨640, 400⟩ pIn [] < 80 ∧
    despawn WIDTH HEIGHT ⟨0, 0⟩ 1 ⟨640, 400⟩ [pIn] = [] := by
  have hmd : minDist WIDTH HEIGHT ⟨0, 0⟩ 1 ⟨640, 400⟩ pIn [] < 80 := by
    unfold minDist listMin screen_to_world WIDTH HEIGHT pIn
    simp [vnorm]
    norm_num
  refine ⟨hmd, ?_⟩
  have h5 := (despawn_nearest WIDTH HEIGHT ⟨0, 0⟩ 1 ⟨640, 400⟩ pIn []).2.2.2.2.1 hmd
  rw [h5]
  rfl

/-- C10: at a planet's exact center the relative vector is zero, so that
planet's contribution is the zero vector, and with a single planet
`compute_gravity` at the planet's center returns exactly the zero vector. -/
theorem gravity_at_center_zero (p : Planet) (h : 0 < p.radius) :
    gravContrib p p.pos = 0 ∧ compute_gravity [p] p.pos = 0 := by
  have hc : gravContrib p p.pos = 0 := by
    unfold gravContrib
    ext <;> simp
  exact ⟨hc, by rw [compute_gravity_foldl]; simp [hc]⟩

/-- C10 witness: instantiation of `gravity_at_center_zero` at the concrete
planet `pIn`. -/
theorem gravity_at_center_zero_witness :
    0 < pIn.radius ∧ (gravContrib pIn pIn.pos = 0 ∧ compute_gravity [pIn] pIn.pos = 0) :=
  ⟨by norm_num [pIn], gravity_at_center_zero pIn (by norm_num [pIn])⟩

/-- C6: while the simulation is paused, `update` returns the state unchanged
for any held keys and any `dt`: ship position, velocity, fuel and heading,
the trail buffer and the camera position are all untouched; only unpausing
resumes mutation. -/
theorem paused_update_frozen (st : EngineState) (keys : Keys) (dt : ℝ)
    (hp : st.paused = true) : update st keys dt = st := by
  simp [update, hp]

/-- C6 witness: instantiation of `paused_update_frozen` at the concrete
paused state `stPaused`. -/
theorem paused_update_frozen_witness :
    stPaused.paused = true ∧ update stPaused keys0 1 = stPaused :=
  ⟨rfl, paused_update_frozen stPaused keys0 1 rfl⟩

theorem append_trunc_length (t : List Vec2) (v : Vec2) (hlen : t.length ≤ max_trail_length) :
    (if (t ++ [v]).length > max_trail_length then (t ++ [v]).tail else t ++ [v]).length ≤
      max_trail_length := by
  split
  · rename_i hgt
    simp only [List.length_tail, List.length_append, List.length_cons, List.length_nil]
    omega
  · rename_i hge
    simp only [gt_iff_lt, not_lt] at hge
    exact hge

theorem update_trails_length (st : EngineState) (keys : Keys) (dt : ℝ)
    (hlen : st.trails.length ≤ max_trail_length) :
    (update st keys dt).trails.length ≤ max_trail_length := by
  unfold update
  split
  · exact hlen
  · dsimp only
    exact append_trunc_length st.trails _ hlen

theorem runUpdates_trails_length (frames : List (Keys × ℝ)) :
    ∀ st : EngineState, st.trails.length ≤ max_trail_length →
      (runUpdates st frames).trails.length ≤ max_trail_length := by
  induction frames with
  | nil => intro st h; exact h
  | cons f fs ih => intro st h; exact ih _ (update_trails_length st f.1 f.2 h)

/-- C5: over any sequence of `update` frames the trail buffer's length never
exceeds the fixed capacity `max_trail_length = 500`, and after `reset`
(which clears the trail buffer) its length is 0. -/
theorem trail_capacity (st : EngineState) (frames : List (Keys × ℝ))
    (hlen : st.trails.length ≤ max_trail_length) :
    (runUpdates st frames).trails.length ≤ max_trail_length ∧
    (reset st).trails.length = 0 :=
  ⟨runUpdates_trails_length frames st hlen, rfl⟩

/-- C5 witness: instantiation of `trail_capacity` at the concrete state `st0`
and a single frame. -/
theorem trail_capacity_witness :
    st0.trails.length ≤ max_trail_length ∧
    ((runUpdates st0 [(keys0, 1)]).trails.length ≤ max_trail_length ∧
      (reset st0).trails.length = 0) :=
  ⟨by simp [st0, max_trail_length],
    trail_capacity st0 [(keys0, 1)] (by simp [st0, max_trail_length])⟩

theorem update_fuel_eq (st : EngineState) (keys : Keys) (dt : ℝ) (hpb : st.paused = false) :
    (update st keys dt).ship.fuel =
      if st.ship.fuel > 0 then
        (if keys.down then
          max 0 ((if keys.up then max 0 (st.ship.fuel - 10 * dt) else st.ship.fuel) - 5 * dt)
        else (if keys.up then max 0 (st.ship.fuel - 10 * dt) else st.ship.fuel))
      else st.ship.fuel := by
  cases hku : keys.up <;> cases hkd : keys.down <;>
    by_cases hf : st.ship.fuel > 0 <;> simp [update, hpb, hf, hku, hkd]

theorem max_zero_le (x y : ℝ) (hy : 0 ≤ y) (hxy : x ≤ y) : max 0 x ≤ y := max_le hy hxy

theorem max_zero_mono (a b : ℝ) (hab : a ≤ b) : max 0 a ≤ max 0 b :=
  max_le_max le_rfl hab

theorem max_zero_collapse (a s : ℝ) (hs : 0 ≤ s) : max 0 (max 0 a - s) ≤ max 0 (a - s) := by
  rcases le_total a 0 with h | h
  · rw [max_eq_left h, zero_sub, max_eq_left (neg_nonpos.mpr hs)]
    exact le_max_left _ _
  · rw [max_eq_right h]

theorem update_fuel_nonneg (st : EngineState) (keys : Keys) (dt : ℝ)
    (h : 0 ≤ st.ship.fuel) : 0 ≤ (update st keys dt).ship.fuel := by
  cases hpb : st.paused
  · rw [update_fuel_eq st keys dt hpb]
    split_ifs <;> simp [le_max_left, h]
  · simp [update, hpb, h]

theorem update_fuel_le (st : EngineState) (keys : Keys) (dt : ℝ)
    (hdt : 0 ≤ dt) : (update st keys dt).ship.fuel ≤ st.ship.fuel := by
  cases hpb : st.paused
  · rw [update_fuel_eq st keys dt hpb]
    split_ifs with h1 h2 h3 h4
    · refine max_zero_le _ _ h1.le ?_
      have hin : max 0 (st.ship.fuel - 10 * dt) ≤ st.ship.fuel :=
        max_zero_le _ _ h1.le (by linarith)
      linarith
    · exact max_zero_le _ _ h1.le (by linarith)
    · exact max_zero_le _ _ h1.le (by linarith)
    · exact le_refl _
    · exact le_refl _
  · simp [update, hpb]

theorem update_fuel_forward_le (st : EngineState) (keys : Keys) (dt : ℝ)
    (hpb : st.paused = false) (hku : keys.up = true) (hdt : 0 ≤ dt) :
    (update st keys dt).ship.fuel ≤ max 0 (st.ship.fuel - 10 * dt) := by
  rw [update_fuel_eq st keys dt hpb]
  simp only [hku, eq_self_iff_true, if_true]
  split_ifs with h1 h2
  · exact max_zero_le _ _ (le_max_left _ _) (sub_le_self _ (by linarith))
  · exact le_refl _
  · exact le_trans (le_of_not_lt h1) (le_max_left _ _)

theorem update_paused_eq (st : EngineState) (keys : Keys) (dt : ℝ) :
    (update st keys dt).paused = st.paused := by
  cases hpb : st.paused <;> simp [update, hpb]

theorem runUpdates_fuel_mono (frames : List (Keys × ℝ)) :
    ∀ st : EngineState, 0 ≤ st.ship.fuel → (∀ f ∈ frames, 0 ≤ f.2) →
      0 ≤ (runUpdates st frames).ship.fuel ∧
      (runUpdates st frames).ship.fuel ≤ st.ship.fuel := by
  induction frames with
  | nil => exact fun st h _ => ⟨h, le_refl _⟩
  | cons f fs ih =>
      intro st h hdt
      have h1 : 0 ≤ (update st f.1 f.2).ship.fuel := update_fuel_nonneg st f.1 f.2 h
      have h2 : (update st f.1 f.2).ship.fuel ≤ st.ship.fuel :=
        update_fuel_le st f.1 f.2 (hdt f (List.mem_cons_self _ _))
      have h3 := ih (update st f.1 f.2) h1 (fun g hg => hdt g (List.mem_cons_of_mem _ hg))
      exact ⟨h3.1, le_trans h3.2 h2⟩

theorem runUpdates_fuel_forward (frames : List (Keys × ℝ)) :
    ∀ st : EngineState, st.paused = false →
      (∀ f ∈ frames, f.1.up = true ∧ 0 ≤ f.2) →
      (runUpdates st frames).ship.fuel ≤
        max 0 (st.ship.fuel - (frames.map fun f => 10 * f.2).sum) := by
  induction frames with
  | nil =>
      intro st _ _
      simp only [runUpdates, List.foldl_nil, List.map_nil, List.sum_nil, sub_zero]
      exact le_max_right _ _
  | cons f fs ih =>
      intro st hpb hfr
      have hhead := hfr f (List.mem_cons_self _ _)
      have hstep : (update st f.1 f.2).ship.fuel ≤ max 0 (st.ship.fuel - 10 * f.2) :=
        update_fuel_forward_le st f.1 f.2 hpb hhead.1 hhead.2
      have hpb1 : (update st f.1 f.2).paused = false := by
        rw [update_paused_eq, hpb]
      have htail := ih (update st f.1 f.2) hpb1 (fun g hg => hfr g (List.mem_cons_of_mem _ hg))
      have hs : 0 ≤ (fs.map fun f => 10 * f.2).sum := by
        apply List.sum_nonneg
        intro x hx
        rcases List.mem_map.mp hx with ⟨g, hg, hgx⟩
        have := (hfr g (List.mem_cons_of_mem _ hg)).2
        rw [← hgx]
        linarith
      calc (runUpdates (update st f.1 f.2) fs).ship.fuel
      _ ≤ max 0 ((update st f.1 f.2).ship.fuel - (fs.map fun f => 10 * f.2).sum) := htail
      _ ≤ max 0 (max 0 (st.ship.fuel - 10 * f.2) - (fs.map fun f => 10 * f.2).sum) :=
          max_zero_mono _ _ (by linarith)
      _ ≤ max 0 (st.ship.fuel - 10 * f.2 - (fs.map fun f => 10 * f.2).sum) :=
          max_zero_collapse _ _ hs
      _ = max 0 (st.ship.fuel - ((f :: fs).map fun f => 10 * f.2).sum) := by
          rw [List.map_cons, List.sum_cons]
          congr 1
          ring

/-- C4: with nonnegative frame times the ship's fuel stays in `[0, 100]` and
never increases across any sequence of `update` calls (there is no refuel);
moreover, starting unpaused with full fuel 100, if thrust-forward is held on
every frame and the total nominal consumption (the sum of `10 * dt` over the
frames) exceeds 100, the final fuel is exactly 0 (clamped, not negative). -/
theorem fuel_invariant (st : EngineState) (frames : List (Keys × ℝ))
    (h0 : 0 ≤ st.ship.fuel) (h100 : st.ship.fuel ≤ 100)
    (hdt : ∀ f ∈ frames, 0 ≤ f.2) :
    (0 ≤ (runUpdates st frames).ship.fuel ∧
      (runUpdates st frames).ship.fuel ≤ st.ship.fuel ∧
      (runUpdates st frames).ship.fuel ≤ 100) ∧
    (st.paused = false → st.ship.fuel = 100 → (∀ f ∈ frames, f.1.up = true) →
      100 < (frames.map fun f => 10 * f.2).sum →
      (runUpdates st frames).ship.fuel = 0) := by
  have hmono := runUpdates_fuel_mono frames st h0 hdt
  refine ⟨⟨hmono.1, hmono.2, le_trans hmono.2 h100⟩, fun hpb hf100 hup hsum => ?_⟩
  have hb := runUpdates_fuel_forward frames st hpb (fun g hg => ⟨hup g hg, hdt g hg⟩)
  rw [hf100] at hb
  rw [max_eq_left (by linarith)] at hb
  exact le_antisymm hb hmono.1

/-- C4 witness: instantiation of `fuel_invariant` at the concrete state `st0`
(fuel 100, unpaused) with two thrust-forward frames of `dt = 6`, so the
nominal consumption is 120 > 100 and the final fuel is exactly 0. -/
theorem fuel_invariant_witness :
    0 ≤ st0.ship.fuel ∧ st0.ship.fuel ≤ 100 ∧
    (∀ f ∈ [(keysUp, (6 : ℝ)), (keysUp, 6)], 0 ≤ f.2) ∧
    st0.paused = false ∧ st0.ship.fuel = 100 ∧
    (∀ f ∈ [(keysUp, (6 : ℝ)), (keysUp, 6)], f.1.up = true) ∧
    100 < (([(keysUp, (6 : ℝ)), (keysUp, 6)]).map fun f => 10 * f.2).sum ∧
    (runUpdates st0 [(keysUp, (6 : ℝ)), (keysUp, 6)]).ship.fuel = 0 := by
  have ha : 0 ≤ st0.ship.fuel := by norm_num [st0, create_default_ship]
  have hb : st0.ship.fuel ≤ 100 := by norm_num [st0, create_default_ship]
  have hc : ∀ f ∈ [(keysUp, (6 : ℝ)), (keysUp, 6)], 0 ≤ f.2 := by
    intro f hf
    rcases List.mem_cons.mp hf with h | h
    · rw [h]; norm_num
    · rcases List.mem_cons.mp h with h2 | h2
      · rw [h2]; norm_num
      · simp at h2
  have hd : st0.paused = false := rfl
  have he : st0.ship.fuel = 100 := rfl
  have hg : ∀ f ∈ [(keysUp, (6 : ℝ)), (keysUp, 6)], f.1.up = true := by
    intro f hf
    rcases List.mem_cons.mp hf with h | h
    · rw [h]
      rfl
    · rcases List.mem_cons.mp h with h2 | h2
      · rw [h2]
        rfl
      · simp at h2
  have hh : (100 : ℝ) < (([(keysUp, (6 : ℝ)), (keysUp, 6)]).map fun f => 10 * f.2).sum := by
    norm_num
  exact ⟨ha, hb, hc, hd, he, hg, hh,
    (fuel_invariant st0 [(keysUp, (6 : ℝ)), (keysUp, 6)] ha hb hc).2 hd he hg hh⟩

/-- C7 (amended): `update` has no guard on `dt`; with `dt = 0` and the
simulation unpaused it leaves the ship's position, velocity, fuel and heading
unchanged, but still appends the current ship position to the trail buffer
(evicting the oldest entry at capacity) and still moves the camera 5% of the
way toward the ship. -/
theorem zero_dt_update (st : EngineState) (keys : Keys) (hp : st.paused = false) :
    (update st keys 0).ship.pos = st.ship.pos ∧
    (update st keys 0).ship.vel = st.ship.vel ∧
    (update st keys 0).ship.fuel = st.ship.fuel ∧
    (update st keys 0).ship.angle = st.ship.angle ∧
    (update st keys 0).trails =
      (if (st.trails ++ [st.ship.pos]).length > max_trail_length then
        (st.trails ++ [st.ship.pos]).tail
      else st.trails ++ [st.ship.pos]) ∧
    (update st keys 0).cam_pos = st.cam_pos + (st.ship.pos - st.cam_pos) * (0.05 : ℝ) ∧
    (update st keys 0).planets = st.planets ∧
    (update st keys 0).zoom = st.zoom := by
  rcases keys with ⟨kl, kr, ku, kd⟩
  by_cases hf : st.ship.fuel > 0
  · have hf0 : (0 : ℝ) ≤ st.ship.fuel := le_of_lt hf
    cases kl <;> cases kr <;> cases ku <;> cases kd <;>
      simp [update, hp, hf, max_eq_right, hf0]
  · cases kl <;> cases kr <;> cases ku <;> cases kd <;>
      simp [update, hp, hf]

/-- C7 counterexample: at the concrete unpaused state `st0` with no keys held
and `dt = 0`, `update` still mutates the trail buffer (a sample is appended),
so the claim that nonpositive `dt` leaves the trail buffer unchanged fails. -/
theorem zero_dt_update_counterexample :
    (update st0 keys0 0).trails ≠ st0.trails := by
  norm_num [update, st0, keys0, create_default_ship, compute_gravity, max_trail_length]

/-- C7 witness: instantiation of `zero_dt_update` at the concrete unpaused
state `st0` with no keys held. -/
theorem zero_dt_update_witness :
    st0.paused = false ∧
    ((update st0 keys0 0).ship.pos = st0.ship.pos ∧
      (update st0 keys0 0).ship.vel = st0.ship.vel ∧
      (update st0 keys0 0).ship.fuel = st0.ship.fuel ∧
      (update st0 keys0 0).ship.angle = st0.ship.angle ∧
      (update st0 keys0 0).trails =
        (if (st0.trails ++ [st0.ship.pos]).length > max_trail_length then
          (st0.trails ++ [st0.ship.pos]).tail
        else st0.trails ++ [st0.ship.pos]) ∧
      (update st0 keys0 0).cam_pos = st0.cam_pos + (st0.ship.pos - st0.cam_pos) * (0.05 : ℝ) ∧
      (update st0 keys0 0).planets = st0.planets ∧
      (update st0 keys0 0).zoom = st0.zoom) :=
  ⟨rfl, zero_dt_update st0 keys0 rfl⟩

end Var2

namespace Var1

theorem fmod_nonneg_lt (a b : ℝ) (hb : 0 < b) : 0 ≤ fmod a b ∧ fmod a b < b := by
  unfold fmod
  have h1 : (⌊a / b⌋ : ℝ) ≤ a / b := Int.floor_le _
  have h2 : a / b < ⌊a / b⌋ + 1 := Int.lt_floor_add_one _
  have h3 : b * (⌊a / b⌋ : ℝ) ≤ a := by
    calc b * (⌊a / b⌋ : ℝ) ≤ b * (a / b) := mul_le_mul_of_nonneg_left h1 hb.le
      _ = a := by field_simp
  have h4 : a < b * ((⌊a / b⌋ : ℝ) + 1) := by
    have h5 := (div_lt_iff hb).mp h2
    linarith
  have h6 : b * ((⌊a / b⌋ : ℝ) + 1) = b * (⌊a / b⌋ : ℝ) + b := by ring
  constructor
  · linarith
  · linarith

/-- C9: every Variant 1 `update` multiplies each velocity component by the
friction factor 0.99, adds the new velocity to the position, and wraps the
position modulo the screen dimensions `WIDTH = 800` and `HEIGHT = 600`, so the
resulting position always lies in `[0, 800) × [0, 600)`. -/
theorem update_friction_wrap (s : Spacecraft) :
    WIDTH = 800 ∧ HEIGHT = 600 ∧
    s.update.vx = s.vx * 0.99 ∧
    s.update.vy = s.vy * 0.99 ∧
    s.update.x = fmod (s.x + s.vx * 0.99) WIDTH ∧
    s.update.y = fmod (s.y + s.vy * 0.99) HEIGHT ∧
    (0 ≤ s.update.x ∧ s.update.x < WIDTH) ∧
    (0 ≤ s.update.y ∧ s.update.y < HEIGHT) := by
  have hw : (0 : ℝ) < WIDTH := by norm_num [WIDTH]
  have hh : (0 : ℝ) < HEIGHT := by norm_num [HEIGHT]
  have hx := fmod_nonneg_lt (s.x + s.vx * 0.99) WIDTH hw
  have hy := fmod_nonneg_lt (s.y + s.vy * 0.99) HEIGHT hh
  exact ⟨rfl, rfl, rfl, rfl, rfl, rfl, hx, hy⟩

end Var1

end
